import Mathlib

/-!
Shallow embedding of the `Orderbook` Solidity contract (EIP-712 signed
orderbook with internal balance tracking): deposits, withdrawals, single
and batch order fills, and order cancellation.

Modelling conventions:
* Addresses and token addresses are natural numbers; `0` is the Solidity
  zero address (the "open taker" sentinel and the invalid-token sentinel).
* `uint256` quantities are naturals.  The three arithmetic sites where
  Solidity 0.8 checked arithmetic can abort inside `_fillOrder`'s check
  ladder are modelled explicitly: the checked subtraction
  `order.amountSell - filledAmountSell[digest]` at line 183 (Panic 0x11
  on underflow), the checked multiplication
  `order.amountBuy * amountToFill` at line 187 (Panic 0x11 when the
  product exceeds `UINT256_MAX`), and the division by `order.amountSell`
  at line 187 (Panic 0x12 when it is zero).  The balance increments of
  lines 125, 195 and 197 are left unbounded: in the EVM they can only
  turn a success into a state-preserving Panic-0x11 abort after every
  check has already passed, so they affect neither which declared error
  a rejection raises nor what a success does to the ledger.
* Stored balances are integers so that non-negativity of every ledger
  entry is a provable invariant rather than a typing artifact.
* The EIP-712 digest (`_orderHash`) is modelled as the injective tuple of
  the order's fields: keccak256 over the abi-encoding of distinct words
  is injective up to hash collisions, and the development works in the
  ideal (collision-free) model of the hash.
* ECDSA recovery is idealised: a `Signature` either fails to parse
  (OpenZeppelin `ECDSA.recover` then reverts) or recovers to a definite
  signer address.
* Revert semantics: every entry point is a function
  `OBState → ... → Except SolError OBState`; an `error` result models a
  reverted call, whose state changes are discarded by the host chain
  (`applyOp` below keeps the pre-state in that case).
* The external ERC-20 `safeTransferFrom` / `safeTransfer` legs of
  `deposit` / `withdraw` are outside the contract's own state and are
  modelled as succeeding; the claims under study only concern the
  internal ledger.
-/

namespace Orderbook

/-- Ethereum addresses; `0` models `address(0)`. -/
abbrev Address : Type := Nat

/-- ERC-20 token contract addresses; `0` models `address(0)`. -/
abbrev Token : Type := Nat

/-- The `Order` struct of the contract (part_007, lines 78–87). -/
structure Order where
  maker : Address
  taker : Address
  tokenSell : Token
  tokenBuy : Token
  amountSell : Nat
  amountBuy : Nat
  expiration : Nat
  salt : Nat
deriving DecidableEq, Repr

/-- The EIP-712 digest of an order, in the ideal-hash model: the digest
is a faithful record of all eight order fields (keccak256 of the
abi-encoding of the type hash and the eight fields, combined with the
domain separator by `_hashTypedDataV4`, is injective in the ideal model
of the hash). -/
structure Commitment where
  maker : Address
  taker : Address
  tokenSell : Token
  tokenBuy : Token
  amountSell : Nat
  amountBuy : Nat
  expiration : Nat
  salt : Nat
deriving DecidableEq, Repr

/-- Model of `_orderHash` (part_007, lines 258–273): the EIP-712 digest of an
order, in the ideal-hash model. -/
def _orderHash (o : Order) : Commitment :=
  ⟨o.maker, o.taker, o.tokenSell, o.tokenBuy,
   o.amountSell, o.amountBuy, o.expiration, o.salt⟩

/-- Public wrapper `getOrderHash` (part_007, lines 280–282). -/
def getOrderHash (o : Order) : Commitment := _orderHash o

/-- Idealised signature blob.  `malformed` stands for any byte string
that OpenZeppelin's ECDSA parsing rejects (wrong length, bad `s` or `v`,
or an `ecrecover` failure); `signedBy a` stands for a well-formed
signature that recovers to address `a`. -/
inductive Signature where
  | malformed
  | signedBy (signer : Address)
deriving DecidableEq, Repr

/-- Idealised `ECDSA.recover`-without-revert (OpenZeppelin
`tryRecover`): `none` when the signature bytes cannot be parsed, else
the recovered signer. -/
def ecrecover (_digest : Commitment) (sig : Signature) : Option Address :=
  match sig with
  | .malformed => none
  | .signedBy a => some a

/-- The contract's custom errors (part_007, lines 57–69), the
OpenZeppelin ECDSA revert on unparseable signatures, and the two
Solidity 0.8 arithmetic panics reachable inside `_fillOrder`. -/
inductive SolError where
  | InvalidTokenAddress
  | InsufficientBalance
  | OrderExpired
  | NotAuthorizedTaker
  | OrderAlreadyCancelled
  | InvalidSignature
  | InsufficientOrderRemaining
  | MakerInsufficientBalance
  | TakerInsufficientBalance
  | ArrayLengthMismatch
  | OnlyMakerCanCancel
  | TooManyOrders
  | ECDSAInvalidSignature
  | PanicUnderflow
  | PanicOverflow
  | PanicDivisionByZero
deriving DecidableEq, Repr

/-- Largest value representable in a `uint256` (`2 ^ 256 - 1`); a
checked multiplication whose product exceeds it reverts with Solidity
Panic 0x11 (the same code as underflow; the model keeps the two apart as
`PanicUnderflow` / `PanicOverflow`). -/
def UINT256_MAX : Nat := 2 ^ 256 - 1

/-- Contract storage: `filledAmountSell`, `balances`, `cancelledOrders`
(part_007, lines 95–100).  Balances are modelled as integers so that
non-negativity is provable, not assumed. -/
@[ext] structure OBState where
  filledAmountSell : Commitment → Nat
  balances : Address → Token → Int
  cancelledOrders : Commitment → Bool

/-- Storage at deployment: all mappings are zero-initialised. -/
def initialState : OBState :=
  { filledAmountSell := fun _ => 0
    balances := fun _ _ => 0
    cancelledOrders := fun _ => false }

/-- Point update of the two-level `balances` mapping. -/
def setBal (f : Address → Token → Int) (a : Address) (t : Token) (v : Int) :
    Address → Token → Int :=
  fun a' t' => if a' = a ∧ t' = t then v else f a' t'

/-- Point update of the `filledAmountSell` mapping. -/
def setFilled (f : Commitment → Nat) (c : Commitment) (v : Nat) :
    Commitment → Nat :=
  fun c' => if c' = c then v else f c'

/-- Point update of the `cancelledOrders` mapping. -/
def setCancelled (f : Commitment → Bool) (c : Commitment) (v : Bool) :
    Commitment → Bool :=
  fun c' => if c' = c then v else f c'

/-- The constant `MAX_BATCH_SIZE` (part_007, line 72). -/
def MAX_BATCH_SIZE : Nat := 5

/-- The proportional tokenBuy amount of `_fillOrder` (part_007, line
187): `(order.amountBuy * amountToFill) / order.amountSell`, with
Solidity's floor (truncating) division. -/
def proportionalBuyAmount (o : Order) (amountToFill : Nat) : Nat :=
  o.amountBuy * amountToFill / o.amountSell

/-- The four sequential balance updates of `_fillOrder` (part_007, lines
193–197), performed in source order on the `balances` mapping. -/
def fillBalances (bal : Address → Token → Int) (maker caller : Address)
    (sell buy : Token) (amt p : Int) : Address → Token → Int :=
  let b1 := setBal bal maker sell (bal maker sell - amt)
  let b2 := setBal b1 maker buy (b1 maker buy + p)
  let b3 := setBal b2 caller buy (b2 caller buy - p)
  setBal b3 caller sell (b3 caller sell + amt)

/-- Model of `deposit` (part_007, lines 123–127): the `validToken` modifier
rejects the zero token address, the external `safeTransferFrom` leg is
modelled as succeeding, and the caller's internal balance grows by
`amount`.  There is no check on `amount` itself. -/
def deposit (s : OBState) (caller : Address) (token : Token) (amount : Nat) :
    Except SolError OBState :=
  if token = 0 then .error .InvalidTokenAddress
  else .ok { s with
    balances := setBal s.balances caller token (s.balances caller token + amount) }

/-- Model of `withdraw` (part_007, lines 134–139): zero-token check, balance
check, then the decrement (the external `safeTransfer` leg is modelled
as succeeding). -/
def withdraw (s : OBState) (caller : Address) (token : Token) (amount : Nat) :
    Except SolError OBState :=
  if token = 0 then .error .InvalidTokenAddress
  else if s.balances caller token < (amount : Int) then .error .InsufficientBalance
  else .ok { s with
    balances := setBal s.balances caller token (s.balances caller token - amount) }

/-- Model of `_fillOrder` (part_007, lines 161–203), with `block.timestamp`
passed in as `now` and `msg.sender` as `caller`.  The checked
subtraction at line 183 and the checked multiplication and division at
line 187 carry their Solidity 0.8 panic semantics explicitly (the EVM
evaluates the product, aborting on uint256 overflow, before the
division). -/
def _fillOrder (s : OBState) (caller : Address) (now : Nat) (order : Order)
    (amountToFill : Nat) (signature : Signature) : Except SolError OBState :=
  if order.expiration < now then .error .OrderExpired
  else if order.taker ≠ 0 ∧ order.taker ≠ caller then .error .NotAuthorizedTaker
  else
    let digest := _orderHash order
    if s.cancelledOrders digest then .error .OrderAlreadyCancelled
    else
      match ecrecover digest signature with
      | none => .error .ECDSAInvalidSignature
      | some recoveredSigner =>
        if recoveredSigner ≠ order.maker then .error .InvalidSignature
        else if order.amountSell < s.filledAmountSell digest then .error .PanicUnderflow
        else
          let remainingSell := order.amountSell - s.filledAmountSell digest
          if remainingSell < amountToFill then .error .InsufficientOrderRemaining
          else if UINT256_MAX < order.amountBuy * amountToFill then .error .PanicOverflow
          else if order.amountSell = 0 then .error .PanicDivisionByZero
          else
            let p := proportionalBuyAmount order amountToFill
            if s.balances order.maker order.tokenSell < (amountToFill : Int) then
              .error .MakerInsufficientBalance
            else if s.balances caller order.tokenBuy < (p : Int) then
              .error .TakerInsufficientBalance
            else
              .ok { s with
                balances := fillBalances s.balances order.maker caller
                  order.tokenSell order.tokenBuy (amountToFill : Int) (p : Int)
                filledAmountSell := setFilled s.filledAmountSell digest
                  (s.filledAmountSell digest + amountToFill) }

/-- Model of `fillOrder` (part_007, lines 147–153): public wrapper around
`_fillOrder` (the reentrancy guard has no effect in this sequential
model). -/
def fillOrder (s : OBState) (caller : Address) (now : Nat) (order : Order)
    (amountToFill : Nat) (signature : Signature) : Except SolError OBState :=
  _fillOrder s caller now order amountToFill signature

/-- The loop body of `fillOrdersBatch` (part_007, lines 221–223): apply
`_fillOrder` to each (order, amount, signature) triple in array order,
aborting with the first error (which reverts the whole call). -/
def fillLoop (caller : Address) (now : Nat) :
    OBState → List (Order × Nat × Signature) → Except SolError OBState
  | s, [] => .ok s
  | s, (o, amt, sig) :: rest =>
      match _fillOrder s caller now o amt sig with
      | .error e => .error e
      | .ok s' => fillLoop caller now s' rest

/-- Model of `fillOrdersBatch` (part_007, lines 211–224): length checks, then the
fill loop. -/
def fillOrdersBatch (s : OBState) (caller : Address) (now : Nat)
    (orders : List Order) (amountsToFill : List Nat)
    (signatures : List Signature) : Except SolError OBState :=
  if orders.length ≠ amountsToFill.length ∨ orders.length ≠ signatures.length then
    .error .ArrayLengthMismatch
  else if MAX_BATCH_SIZE < orders.length then .error .TooManyOrders
  else fillLoop caller now s (orders.zip (amountsToFill.zip signatures))

/-- Model of `verifyOrder` (part_007, lines 232–253): recompute the digest and
recover the signer.  `digest.recover(signature)` is OpenZeppelin's
reverting `recover`, so an unparseable signature aborts the call instead
of yielding `false`. -/
def verifyOrder (order : Order) (signature : Signature) : Except SolError Bool :=
  match ecrecover (_orderHash order) signature with
  | none => .error .ECDSAInvalidSignature
  | some recovered => .ok (decide (recovered = order.maker))

/-- Model of `cancelOrder` (part_007, lines 288–300): maker-only; marks the
digest cancelled. -/
def cancelOrder (s : OBState) (caller : Address) (order : Order) :
    Except SolError OBState :=
  if caller ≠ order.maker then .error .OnlyMakerCanCancel
  else .ok { s with
    cancelledOrders := setCancelled s.cancelledOrders (_orderHash order) true }

/-- The loop body of `cancelOrdersBatch` (part_007, lines 309–314). -/
def cancelLoop (caller : Address) :
    OBState → List Order → Except SolError OBState
  | s, [] => .ok s
  | s, o :: rest =>
      if caller ≠ o.maker then .error .OnlyMakerCanCancel
      else cancelLoop caller
        { s with cancelledOrders := setCancelled s.cancelledOrders (_orderHash o) true }
        rest

/-- Model of `cancelOrdersBatch` (part_007, lines 306–315). -/
def cancelOrdersBatch (s : OBState) (caller : Address) (orders : List Order) :
    Except SolError OBState :=
  if MAX_BATCH_SIZE < orders.length then .error .TooManyOrders
  else cancelLoop caller s orders

/-- One external call into the contract, with its caller and, for the
fill entry points, the block timestamp. -/
inductive Op where
  | deposit (caller : Address) (token : Token) (amount : Nat)
  | withdraw (caller : Address) (token : Token) (amount : Nat)
  | fillOrder (caller : Address) (now : Nat) (order : Order)
      (amountToFill : Nat) (signature : Signature)
  | fillOrdersBatch (caller : Address) (now : Nat) (orders : List Order)
      (amountsToFill : List Nat) (signatures : List Signature)
  | cancelOrder (caller : Address) (order : Order)
  | cancelOrdersBatch (caller : Address) (orders : List Order)

/-- Dispatch an external call to the corresponding entry point. -/
def exec (s : OBState) : Op → Except SolError OBState
  | .deposit c t a => deposit s c t a
  | .withdraw c t a => withdraw s c t a
  | .fillOrder c now o amt sig => fillOrder s c now o amt sig
  | .fillOrdersBatch c now os amts sigs => fillOrdersBatch s c now os amts sigs
  | .cancelOrder c o => cancelOrder s c o
  | .cancelOrdersBatch c os => cancelOrdersBatch s c os

/-- Chain semantics of one transaction: a reverted call leaves storage
untouched. -/
def applyOp (s : OBState) (op : Op) : OBState :=
  match exec s op with
  | .ok s' => s'
  | .error _ => s

/-- Storage after a sequence of transactions starting from deployment. -/
def execTrace (ops : List Op) : OBState :=
  ops.foldl applyOp initialState

/-- Whether an operation is one of the two fill entry points. -/
def isFillOp : Op → Bool
  | .fillOrder _ _ _ _ _ => true
  | .fillOrdersBatch _ _ _ _ _ => true
  | _ => false

/-- The addresses whose ledger rows an operation's success path can
touch. -/
def opParties : Op → List Address
  | .deposit c _ _ => [c]
  | .withdraw c _ _ => [c]
  | .fillOrder c _ o _ _ => [c, o.maker]
  | .fillOrdersBatch c _ os _ _ => c :: os.map Order.maker
  | .cancelOrder _ _ => []
  | .cancelOrdersBatch _ _ => []

/-- Sum of the ledger entries for token `t` over a finite set of
address, i.e. the total quantity of `t` the ledger accounts for among
those addresses. -/
def sumBal (s : OBState) (S : Finset Address) (t : Token) : Int :=
  Finset.sum S (fun a => s.balances a t)

/-- Reachable-state invariant: every fill counter is bounded by the
amountSell recorded in its commitment. -/
def FillBoundInv (s : OBState) : Prop :=
  ∀ c : Commitment, s.filledAmountSell c ≤ c.amountSell

/-- Reachable-state invariant: every ledger entry is non-negative. -/
def NonNegInv (s : OBState) : Prop :=
  ∀ (a : Address) (t : Token), 0 ≤ s.balances a t

/-- Reference semantics for the batch body, written against the public
single-order entry point: execute `exec` on a single `Op.fillOrder` for
each triple in order, fail-fast. -/
def execFillSeq (caller : Address) (now : Nat) :
    OBState → List (Order × Nat × Signature) → Except SolError OBState
  | s, [] => .ok s
  | s, (o, amt, sig) :: rest =>
      match exec s (Op.fillOrder caller now o amt sig) with
      | .error e => .error e
      | .ok s' => execFillSeq caller now s' rest

/-- A concrete demonstration order: maker `1` sells 100 of token `1`
for 200 of token `2`, open taker, expiring at time 1000. -/
def demoOrder : Order :=
  { maker := 1, taker := 0, tokenSell := 1, tokenBuy := 2,
    amountSell := 100, amountBuy := 200, expiration := 1000, salt := 7 }

/-- The demonstration order with only its salt changed. -/
def demoOrder2 : Order := { demoOrder with salt := 8 }

/-- The demonstration order with `amountSell = 0` (and a nonzero
`amountBuy`), used to exhibit the unguarded division. -/
def demoOrderZero : Order := { demoOrder with amountSell := 0, amountBuy := 10 }

/-- A concrete pre-state: address `1` holds 500 of token `1`, address
`2` holds 500 of token `2`, no fills, no cancellations. -/
def demoState : OBState :=
  { filledAmountSell := fun _ => 0
    balances := fun a t =>
      if a = 1 ∧ t = 1 then 500 else if a = 2 ∧ t = 2 then 500 else 0
    cancelledOrders := fun _ => false }

/-- State `demoState` after caller `2` fills 40 units of `demoOrder` at time
10. -/
def demoAfterFill : OBState :=
  applyOp demoState (Op.fillOrder 2 10 demoOrder 40 (.signedBy 1))

/-- State `demoState` after caller `2` deposits 30 of token `1`. -/
def demoAfterDeposit : OBState :=
  applyOp demoState (Op.deposit 2 1 30)

/-- State `demoState` after the maker (address `1`) cancels `demoOrder`. -/
def demoCancelled : OBState :=
  applyOp demoState (Op.cancelOrder 1 demoOrder)

/-! ### Helper lemmas about the balance mapping -/

theorem setBal_apply (f : Address → Token → Int) (a : Address) (tok : Token)
    (v : Int) (x : Address) (t : Token) :
    setBal f a tok v x t = if x = a ∧ t = tok then v else f x t := rfl

theorem sum_setBal (f : Address → Token → Int) (S : Finset Address) (t tok : Token)
    (a : Address) (v : Int) (ha : a ∈ S) :
    Finset.sum S (fun x => setBal f a tok v x t)
      = Finset.sum S (fun x => f x t) + (if t = tok then v - f a t else 0) := by
  by_cases h : t = tok
  · subst h
    have hfun : (fun x => setBal f a t v x t) = Function.update (fun x => f x t) a v := by
      funext x
      by_cases hx : x = a <;> simp [setBal, Function.update, hx]
    rw [hfun, Finset.sum_update_of_mem ha, if_pos rfl,
        Finset.sdiff_singleton_eq_erase, Finset.sum_erase_eq_sub ha]
    ring
  · have hfun : (fun x => setBal f a tok v x t) = fun x => f x t := by
      funext x
      simp [setBal, h]
    rw [hfun, if_neg h, add_zero]

theorem sum_fillBalances (bal : Address → Token → Int) (maker caller : Address)
    (sell buy : Token) (amt p : Int) (S : Finset Address) (t : Token)
    (hm : maker ∈ S) (hc : caller ∈ S) :
    Finset.sum S (fun x => fillBalances bal maker caller sell buy amt p x t)
      = Finset.sum S (fun x => bal x t) := by
  simp only [fillBalances]
  rw [sum_setBal _ S t sell caller _ hc, sum_setBal _ S t buy caller _ hc,
      sum_setBal _ S t buy maker _ hm, sum_setBal _ S t sell maker _ hm]
  by_cases h1 : t = sell
  · subst h1
    by_cases h2 : t = buy
    · subst h2
      simp only [eq_self_iff_true, if_true]
      ring
    · simp only [eq_self_iff_true, if_true, if_neg h2]
      ring
  · by_cases h2 : t = buy
    · subst h2
      simp only [eq_self_iff_true, if_true, if_neg h1]
      ring
    · simp only [if_neg h1, if_neg h2]
      ring

theorem fillBalances_apply (bal : Address → Token → Int) (maker caller : Address)
    (sell buy : Token) (amt p : Int) (x : Address) (t : Token) :
    fillBalances bal maker caller sell buy amt p x t =
      bal x t + (if x = maker ∧ t = sell then -amt else 0)
              + (if x = maker ∧ t = buy then p else 0)
              + (if x = caller ∧ t = buy then -p else 0)
              + (if x = caller ∧ t = sell then amt else 0) := by
  by_cases hxm : x = maker <;> by_cases hxc : x = caller <;>
    by_cases hts : t = sell <;> by_cases htb : t = buy <;>
    (try subst hxm) <;> (try subst hxc) <;> (try subst hts) <;> (try subst htb) <;>
    (try simp_all [fillBalances, setBal]) <;> omega

theorem fillBalances_nonneg (bal : Address → Token → Int) (maker caller : Address)
    (sell buy : Token) (amt p : Int)
    (hnn : ∀ a t, 0 ≤ bal a t) (hm : amt ≤ bal maker sell) (hc : p ≤ bal caller buy)
    (hamt : 0 ≤ amt) (hp : 0 ≤ p) :
    ∀ x t, 0 ≤ fillBalances bal maker caller sell buy amt p x t := by
  intro x t
  have h1 := hnn x t
  have h2 := hnn maker sell
  have h3 := hnn maker buy
  have h4 := hnn caller sell
  have h5 := hnn caller buy
  clear hnn
  rw [fillBalances_apply]
  by_cases hxm : x = maker <;> by_cases hxc : x = caller <;>
    by_cases hts : t = sell <;> by_cases htb : t = buy <;>
    (try subst hxm) <;> (try subst hxc) <;> (try subst hts) <;> (try subst htb) <;>
    (try simp_all) <;> omega

/-! ### Inversion lemmas for the entry points -/

theorem deposit_ok_elim {s : OBState} {c : Address} {t : Token} {a : Nat} {s' : OBState}
    (h : deposit s c t a = .ok s') :
    t ≠ 0 ∧
    s' = { s with balances := setBal s.balances c t (s.balances c t + a) } := by
  unfold deposit at h
  split_ifs at h with h0 <;> simp_all

theorem withdraw_ok_elim {s : OBState} {c : Address} {t : Token} {a : Nat} {s' : OBState}
    (h : withdraw s c t a = .ok s') :
    t ≠ 0 ∧ (a : Int) ≤ s.balances c t ∧
    s' = { s with balances := setBal s.balances c t (s.balances c t - a) } := by
  unfold withdraw at h
  split_ifs at h with h0 h1 <;> simp_all

theorem cancelOrder_ok_elim {s : OBState} {c : Address} {o : Order} {s' : OBState}
    (h : cancelOrder s c o = .ok s') :
    c = o.maker ∧
    s' = { s with cancelledOrders := setCancelled s.cancelledOrders (_orderHash o) true } := by
  unfold cancelOrder at h
  split_ifs at h with h0 <;> simp_all

set_option maxHeartbeats 1600000 in
theorem _fillOrder_ok_elim {s : OBState} {caller : Address} {now : Nat} {o : Order}
    {amt : Nat} {sig : Signature} {s' : OBState}
    (h : _fillOrder s caller now o amt sig = .ok s') :
    ¬ o.expiration < now ∧
    ¬ (o.taker ≠ 0 ∧ o.taker ≠ caller) ∧
    s.cancelledOrders (_orderHash o) = false ∧
    sig = .signedBy o.maker ∧
    s.filledAmountSell (_orderHash o) ≤ o.amountSell ∧
    amt ≤ o.amountSell - s.filledAmountSell (_orderHash o) ∧
    o.amountBuy * amt ≤ UINT256_MAX ∧
    0 < o.amountSell ∧
    (amt : Int) ≤ s.balances o.maker o.tokenSell ∧
    (proportionalBuyAmount o amt : Int) ≤ s.balances caller o.tokenBuy ∧
    s' = { filledAmountSell := setFilled s.filledAmountSell (_orderHash o)
             (s.filledAmountSell (_orderHash o) + amt)
           balances := fillBalances s.balances o.maker caller o.tokenSell o.tokenBuy
             (amt : Int) (proportionalBuyAmount o amt : Int)
           cancelledOrders := s.cancelledOrders } := by
  cases sig with
  | malformed =>
      simp only [_fillOrder, ecrecover] at h
      split_ifs at h <;> simp_all
  | signedBy a =>
      simp only [_fillOrder, ecrecover] at h
      split_ifs at h <;> first
        | (simp_all; done)
        | (simp_all; exact ⟨by tauto, by omega⟩)
        | exact ⟨by tauto, by omega⟩

theorem _fillOrder_ok_filled_mono {s : OBState} {caller : Address} {now : Nat}
    {o : Order} {amt : Nat} {sig : Signature} {s' : OBState}
    (h : _fillOrder s caller now o amt sig = .ok s') :
    ∀ c, s.filledAmountSell c ≤ s'.filledAmountSell c := by
  obtain ⟨-, -, -, -, -, -, -, -, -, -, hs⟩ := _fillOrder_ok_elim h
  subst hs
  intro c
  simp only [setFilled]
  split_ifs with hc
  · subst hc; omega
  · exact le_refl _

theorem _fillOrder_ok_fillBound {s : OBState} {caller : Address} {now : Nat}
    {o : Order} {amt : Nat} {sig : Signature} {s' : OBState}
    (hinv : FillBoundInv s) (h : _fillOrder s caller now o amt sig = .ok s') :
    FillBoundInv s' := by
  obtain ⟨-, -, -, -, h5, h6, -, -, -, -, hs⟩ := _fillOrder_ok_elim h
  subst hs
  intro c
  simp only [setFilled]
  split_ifs with hc
  · subst hc
    have : (_orderHash o).amountSell = o.amountSell := rfl
    omega
  · exact hinv c

theorem _fillOrder_ok_nonneg {s : OBState} {caller : Address} {now : Nat}
    {o : Order} {amt : Nat} {sig : Signature} {s' : OBState}
    (hnn : NonNegInv s) (h : _fillOrder s caller now o amt sig = .ok s') :
    NonNegInv s' := by
  obtain ⟨-, -, -, -, -, -, -, -, h8, h9, hs⟩ := _fillOrder_ok_elim h
  subst hs
  exact fillBalances_nonneg _ _ _ _ _ _ _ hnn h8 h9
    (Int.natCast_nonneg amt) (Int.natCast_nonneg _)

theorem _fillOrder_ok_sum {s : OBState} {caller : Address} {now : Nat}
    {o : Order} {amt : Nat} {sig : Signature} {s' : OBState}
    (h : _fillOrder s caller now o amt sig = .ok s')
    {S : Finset Address} (hm : o.maker ∈ S) (hc : caller ∈ S) (t : Token) :
    sumBal s' S t = sumBal s S t := by
  obtain ⟨-, -, -, -, -, -, -, -, -, -, hs⟩ := _fillOrder_ok_elim h
  subst hs
  exact sum_fillBalances _ _ _ _ _ _ _ S t hm hc

theorem fillLoop_ok_props (caller : Address) (now : Nat) :
    ∀ (l : List (Order × Nat × Signature)) (s s' : OBState),
    fillLoop caller now s l = .ok s' →
    s'.cancelledOrders = s.cancelledOrders ∧
    (∀ c, s.filledAmountSell c ≤ s'.filledAmountSell c) ∧
    (FillBoundInv s → FillBoundInv s') ∧
    (NonNegInv s → NonNegInv s') ∧
    (∀ (S : Finset Address) (t : Token), caller ∈ S →
      (∀ x ∈ l, (x : Order × Nat × Signature).1.maker ∈ S) →
      sumBal s' S t = sumBal s S t)
  | [], s, s', h => by
      simp only [fillLoop] at h
      cases h
      exact ⟨rfl, fun c => le_refl _, id, id, fun S t _ _ => rfl⟩
  | (o, amt, sig) :: rest, s, s', h => by
      simp only [fillLoop] at h
      split at h
      · simp at h
      · next s1 heq =>
        obtain ⟨ih1, ih2, ih3, ih4, ih5⟩ := fillLoop_ok_props caller now rest s1 s' h
        have c1 : s1.cancelledOrders = s.cancelledOrders := by
          obtain ⟨-, -, -, -, -, -, -, -, -, -, hs⟩ := _fillOrder_ok_elim heq
          subst hs; rfl
        refine ⟨by rw [ih1, c1], ?_, ?_, ?_, ?_⟩
        · exact fun c => le_trans (_fillOrder_ok_filled_mono heq c) (ih2 c)
        · exact fun hinv => ih3 (_fillOrder_ok_fillBound hinv heq)
        · exact fun hnn => ih4 (_fillOrder_ok_nonneg hnn heq)
        · intro S t hcS hms
          have hm : o.maker ∈ S := hms (o, amt, sig) (List.mem_cons_self _ _)
          rw [ih5 S t hcS (fun x hx => hms x (List.mem_cons_of_mem _ hx))]
          exact _fillOrder_ok_sum heq hm hcS t

theorem cancelLoop_ok_props (caller : Address) :
    ∀ (l : List Order) (s s' : OBState), cancelLoop caller s l = .ok s' →
    s'.balances = s.balances ∧
    s'.filledAmountSell = s.filledAmountSell ∧
    (∀ c, s.cancelledOrders c = true → s'.cancelledOrders c = true)
  | [], s, s', h => by
      simp only [cancelLoop] at h
      cases h
      exact ⟨rfl, rfl, fun c hc => hc⟩
  | o :: rest, s, s', h => by
      simp only [cancelLoop] at h
      split_ifs at h
      obtain ⟨ih1, ih2, ih3⟩ := cancelLoop_ok_props caller rest _ s' h
      refine ⟨ih1, ih2, fun c hc => ih3 c ?_⟩
      simp only [setCancelled]
      split_ifs <;> simp_all

theorem fillOrdersBatch_ok_elim {s : OBState} {caller : Address} {now : Nat}
    {os : List Order} {amts : List Nat} {sigs : List Signature} {s' : OBState}
    (h : fillOrdersBatch s caller now os amts sigs = .ok s') :
    os.length = amts.length ∧ os.length = sigs.length ∧
    os.length ≤ MAX_BATCH_SIZE ∧
    fillLoop caller now s (os.zip (amts.zip sigs)) = .ok s' := by
  unfold fillOrdersBatch at h
  split_ifs at h with h1 h2
  push_neg at h1
  exact ⟨h1.1, h1.2, by omega, h⟩

theorem cancelOrdersBatch_ok_elim {s : OBState} {caller : Address}
    {os : List Order} {s' : OBState}
    (h : cancelOrdersBatch s caller os = .ok s') :
    os.length ≤ MAX_BATCH_SIZE ∧ cancelLoop caller s os = .ok s' := by
  unfold cancelOrdersBatch at h
  split_ifs at h with h1
  exact ⟨by omega, h⟩

/-! ### Per-transaction preservation lemmas -/

theorem exec_ok_fields {s : OBState} {op : Op} {s' : OBState} (h : exec s op = .ok s') :
    (∀ c, s.filledAmountSell c ≤ s'.filledAmountSell c) ∧
    (FillBoundInv s → FillBoundInv s') ∧
    (NonNegInv s → NonNegInv s') ∧
    (∀ c, s.cancelledOrders c = true → s'.cancelledOrders c = true) := by
  cases op with
  | deposit c t a =>
      obtain ⟨-, hs⟩ := deposit_ok_elim h
      subst hs
      refine ⟨fun c => le_refl _, fun hinv => hinv, ?_, fun c hc => hc⟩
      intro hnn x tok
      simp only [setBal]
      split_ifs with hx
      · obtain ⟨rfl, rfl⟩ := hx
        have := hnn x tok
        omega
      · exact hnn x tok
  | withdraw c t a =>
      obtain ⟨-, hge, hs⟩ := withdraw_ok_elim h
      subst hs
      refine ⟨fun c => le_refl _, fun hinv => hinv, ?_, fun c hc => hc⟩
      intro hnn x tok
      simp only [setBal]
      split_ifs with hx
      · obtain ⟨rfl, rfl⟩ := hx
        omega
      · exact hnn x tok
  | fillOrder c now o amt sig =>
      refine ⟨_fillOrder_ok_filled_mono h, fun hinv => _fillOrder_ok_fillBound hinv h,
        fun hnn => _fillOrder_ok_nonneg hnn h, ?_⟩
      obtain ⟨-, -, -, -, -, -, -, -, -, -, hs⟩ := _fillOrder_ok_elim h
      subst hs
      exact fun c hc => hc
  | fillOrdersBatch c now os amts sigs =>
      obtain ⟨-, -, -, hloop⟩ := fillOrdersBatch_ok_elim h
      obtain ⟨l1, l2, l3, l4, -⟩ := fillLoop_ok_props c now _ s s' hloop
      exact ⟨l2, l3, l4, fun c hc => by rw [l1]; exact hc⟩
  | cancelOrder c o =>
      obtain ⟨-, hs⟩ := cancelOrder_ok_elim h
      subst hs
      refine ⟨fun c => le_refl _, fun hinv => hinv, fun hnn => hnn, ?_⟩
      intro c' hc'
      simp only [setCancelled]
      split_ifs <;> simp_all
  | cancelOrdersBatch c os =>
      obtain ⟨-, hloop⟩ := cancelOrdersBatch_ok_elim h
      obtain ⟨l1, l2, l3⟩ := cancelLoop_ok_props c _ s s' hloop
      refine ⟨fun c => by rw [l2], fun hinv c => by rw [l2]; exact hinv c,
        fun hnn x t => by rw [l1]; exact hnn x t, l3⟩

theorem applyOp_fields (s : OBState) (op : Op) :
    (∀ c, s.filledAmountSell c ≤ (applyOp s op).filledAmountSell c) ∧
    (FillBoundInv s → FillBoundInv (applyOp s op)) ∧
    (NonNegInv s → NonNegInv (applyOp s op)) ∧
    (∀ c, s.cancelledOrders c = true → (applyOp s op).cancelledOrders c = true) := by
  unfold applyOp
  split
  · next s1 heq => exact exec_ok_fields heq
  · exact ⟨fun c => le_refl _, fun hinv => hinv, fun hnn => hnn, fun c hc => hc⟩

theorem foldl_fillBound : ∀ (ops : List Op) (s : OBState),
    FillBoundInv s → FillBoundInv (ops.foldl applyOp s)
  | [], s, hinv => hinv
  | op :: rest, s, hinv =>
      foldl_fillBound rest (applyOp s op) ((applyOp_fields s op).2.1 hinv)

theorem foldl_nonneg : ∀ (ops : List Op) (s : OBState),
    NonNegInv s → NonNegInv (ops.foldl applyOp s)
  | [], s, hnn => hnn
  | op :: rest, s, hnn =>
      foldl_nonneg rest (applyOp s op) ((applyOp_fields s op).2.2.1 hnn)

theorem initialState_fillBound : FillBoundInv initialState :=
  fun c => Nat.zero_le c.amountSell

theorem initialState_nonneg : NonNegInv initialState :=
  fun _ _ => le_refl 0

theorem deposit_ok_sum {s : OBState} {c : Address} {tok : Token} {a : Nat} {s' : OBState}
    (h : deposit s c tok a = .ok s') (S : Finset Address) (t : Token) (hc : c ∈ S) :
    sumBal s' S t = sumBal s S t + (if t = tok then (a : Int) else 0) := by
  obtain ⟨-, hs⟩ := deposit_ok_elim h
  subst hs
  have h1 := sum_setBal s.balances S t tok c (s.balances c tok + (a : Int)) hc
  have h2 : sumBal { s with balances := setBal s.balances c tok (s.balances c tok + (a : Int)) } S t
      = Finset.sum S (fun x => setBal s.balances c tok (s.balances c tok + (a : Int)) x t) := rfl
  have h3 : sumBal s S t = Finset.sum S (fun x => s.balances x t) := rfl
  rw [h2, h1, h3]
  split_ifs with ht
  · subst ht; ring
  · ring

theorem withdraw_ok_sum {s : OBState} {c : Address} {tok : Token} {a : Nat} {s' : OBState}
    (h : withdraw s c tok a = .ok s') (S : Finset Address) (t : Token) (hc : c ∈ S) :
    sumBal s' S t = sumBal s S t - (if t = tok then (a : Int) else 0) := by
  obtain ⟨-, -, hs⟩ := withdraw_ok_elim h
  subst hs
  have h1 := sum_setBal s.balances S t tok c (s.balances c tok - (a : Int)) hc
  have h2 : sumBal { s with balances := setBal s.balances c tok (s.balances c tok - (a : Int)) } S t
      = Finset.sum S (fun x => setBal s.balances c tok (s.balances c tok - (a : Int)) x t) := rfl
  have h3 : sumBal s S t = Finset.sum S (fun x => s.balances x t) := rfl
  rw [h2, h1, h3]
  split_ifs with ht
  · subst ht; ring
  · ring

theorem applyOp_fill_sum (s : OBState) (op : Op) (S : Finset Address) (t : Token)
    (hf : isFillOp op = true) (hp : ∀ a ∈ opParties op, a ∈ S) :
    sumBal (applyOp s op) S t = sumBal s S t := by
  cases op with
  | deposit c tk a => simp [isFillOp] at hf
  | withdraw c tk a => simp [isFillOp] at hf
  | cancelOrder c o => simp [isFillOp] at hf
  | cancelOrdersBatch c os => simp [isFillOp] at hf
  | fillOrder c now o amt sig =>
      have hc : c ∈ S := hp c (by simp [opParties])
      have hm : o.maker ∈ S := hp o.maker (by simp [opParties])
      unfold applyOp
      split
      · next s1 heq => exact _fillOrder_ok_sum heq hm hc t
      · rfl
  | fillOrdersBatch c now os amts sigs =>
      have hc : c ∈ S := hp c (by simp [opParties])
      unfold applyOp
      split
      · next s1 heq =>
          obtain ⟨-, -, -, hloop⟩ := fillOrdersBatch_ok_elim heq
          obtain ⟨-, -, -, -, l5⟩ := fillLoop_ok_props c now _ s s1 hloop
          refine l5 S t hc ?_
          intro x hx
          have hx1 : x.1 ∈ os := (List.of_mem_zip hx).1
          exact hp x.1.maker
            (List.mem_cons_of_mem _ (List.mem_map_of_mem _ hx1))
      · rfl

theorem foldl_fill_sum : ∀ (ops : List Op) (s : OBState) (S : Finset Address) (t : Token),
    (∀ op ∈ ops, isFillOp op = true ∧ ∀ a ∈ opParties op, a ∈ S) →
    sumBal (ops.foldl applyOp s) S t = sumBal s S t
  | [], _, _, _, _ => rfl
  | op :: rest, s, S, t, hops => by
      have h1 := hops op (List.mem_cons_self _ _)
      rw [List.foldl_cons,
        foldl_fill_sum rest (applyOp s op) S t
          (fun op' h' => hops op' (List.mem_cons_of_mem _ h'))]
      exact applyOp_fill_sum s op S t h1.1 h1.2

theorem applyOp_of_error {s : OBState} {op : Op} {e : SolError}
    (h : exec s op = .error e) : applyOp s op = s := by
  unfold applyOp
  rw [h]

theorem fillLoop_eq_execFillSeq (caller : Address) (now : Nat) :
    ∀ (l : List (Order × Nat × Signature)) (s : OBState),
    fillLoop caller now s l = execFillSeq caller now s l
  | [], _ => rfl
  | (o, amt, sig) :: rest, s => by
      simp only [fillLoop, execFillSeq]
      have he : exec s (Op.fillOrder caller now o amt sig)
          = _fillOrder s caller now o amt sig := rfl
      rw [he]
      cases _fillOrder s caller now o amt sig with
      | error e => rfl
      | ok s1 => exact fillLoop_eq_execFillSeq caller now rest s1

/-! ### Claim theorems -/

/-- C1 — Conservation: for every token, a successful `fillOrder` or
`fillOrdersBatch` leaves the sum of `balances[user][token]` over any set
of users containing the parties unchanged; a successful `deposit`
increases the depositor's entry (and the total) by exactly `amount`; a
successful `withdraw` decreases the caller's entry (and the total) by
exactly `amount`; every transaction preserves non-negativity of every
individual balance entry; and along any sequence of fill transactions
the per-token total is invariant. -/
theorem conservation_C1 :
    (∀ (s : OBState) (caller : Address) (now : Nat) (o : Order) (amt : Nat)
        (sig : Signature) (s' : OBState) (S : Finset Address) (t : Token),
        fillOrder s caller now o amt sig = .ok s' →
        o.maker ∈ S → caller ∈ S →
        sumBal s' S t = sumBal s S t) ∧
    (∀ (s : OBState) (caller : Address) (now : Nat) (os : List Order)
        (amts : List Nat) (sigs : List Signature) (s' : OBState)
        (S : Finset Address) (t : Token),
        fillOrdersBatch s caller now os amts sigs = .ok s' →
        (∀ o ∈ os, (o : Order).maker ∈ S) → caller ∈ S →
        sumBal s' S t = sumBal s S t) ∧
    (∀ (s : OBState) (caller : Address) (token : Token) (amount : Nat) (s' : OBState),
        deposit s caller token amount = .ok s' →
        s'.balances caller token = s.balances caller token + amount ∧
        ∀ (S : Finset Address) (t : Token), caller ∈ S →
          sumBal s' S t = sumBal s S t + (if t = token then (amount : Int) else 0)) ∧
    (∀ (s : OBState) (caller : Address) (token : Token) (amount : Nat) (s' : OBState),
        withdraw s caller token amount = .ok s' →
        s'.balances caller token = s.balances caller token - amount ∧
        ∀ (S : Finset Address) (t : Token), caller ∈ S →
          sumBal s' S t = sumBal s S t - (if t = token then (amount : Int) else 0)) ∧
    (∀ (s : OBState) (op : Op), NonNegInv s → NonNegInv (applyOp s op)) ∧
    (∀ (ops : List Op) (s : OBState) (S : Finset Address) (t : Token),
        (∀ op ∈ ops, isFillOp op = true ∧ ∀ a ∈ opParties op, a ∈ S) →
        sumBal (ops.foldl applyOp s) S t = sumBal s S t) := by
  refine ⟨?_, ?_, ?_, ?_, ?_, ?_⟩
  · intro s caller now o amt sig s' S t h hm hc
    exact _fillOrder_ok_sum h hm hc t
  · intro s caller now os amts sigs s' S t h hms hc
    obtain ⟨-, -, -, hloop⟩ := fillOrdersBatch_ok_elim h
    obtain ⟨-, -, -, -, l5⟩ := fillLoop_ok_props caller now _ s s' hloop
    exact l5 S t hc (fun x hx => hms x.1 (List.of_mem_zip hx).1)
  · intro s caller token amount s' h
    obtain ⟨-, hs⟩ := deposit_ok_elim h
    refine ⟨?_, fun S t hc => deposit_ok_sum h S t hc⟩
    subst hs
    simp [setBal]
  · intro s caller token amount s' h
    obtain ⟨-, -, hs⟩ := withdraw_ok_elim h
    refine ⟨?_, fun S t hc => withdraw_ok_sum h S t hc⟩
    subst hs
    simp [setBal]
  · intro s op hnn
    exact (applyOp_fields s op).2.2.1 hnn
  · intro ops s S t hops
    exact foldl_fill_sum ops s S t hops

/-- Witness for C1 at concrete inputs: a 40-unit fill conserves the
token-1 total over the two parties, and a 30-unit deposit of token 1
raises it by 30. -/
theorem conservation_C1_witness :
    sumBal demoAfterFill ({1, 2} : Finset Address) 1
      = sumBal demoState ({1, 2} : Finset Address) 1 ∧
    sumBal demoAfterDeposit ({1, 2} : Finset Address) 1
      = sumBal demoState ({1, 2} : Finset Address) 1 + 30 := by
  constructor
  · exact conservation_C1.1 demoState 2 10 demoOrder 40 (.signedBy 1)
      demoAfterFill {1, 2} 1 rfl (by decide) (by decide)
  · have h := (conservation_C1.2.2.1 demoState 2 1 30 demoAfterDeposit rfl).2
      {1, 2} 1 (by decide)
    simpa using h

/-- C2 — Monotonic fill bound: every fill counter starts at zero at
deployment, never decreases under any transaction, is bounded by the
commitment's `amountSell` in every reachable state, and a `fillOrder`
whose `amountToFill` exceeds the remaining capacity (all earlier checks
passing) reverts with `InsufficientOrderRemaining`. -/
theorem fill_bound_C2 :
    (∀ c : Commitment, initialState.filledAmountSell c = 0) ∧
    (∀ (s : OBState) (op : Op) (c : Commitment),
        s.filledAmountSell c ≤ (applyOp s op).filledAmountSell c) ∧
    (∀ (ops : List Op) (c : Commitment),
        (execTrace ops).filledAmountSell c ≤ c.amountSell) ∧
    (∀ (s : OBState) (caller : Address) (now : Nat) (o : Order) (amt : Nat)
        (sig : Signature),
        FillBoundInv s →
        ¬ o.expiration < now →
        ¬ (o.taker ≠ 0 ∧ o.taker ≠ caller) →
        s.cancelledOrders (_orderHash o) = false →
        ecrecover (_orderHash o) sig = some o.maker →
        o.amountSell - s.filledAmountSell (_orderHash o) < amt →
        fillOrder s caller now o amt sig = .error .InsufficientOrderRemaining) := by
  refine ⟨fun c => rfl, ?_, ?_, ?_⟩
  · intro s op c
    exact (applyOp_fields s op).1 c
  · intro ops c
    exact foldl_fillBound ops initialState initialState_fillBound c
  · intro s caller now o amt sig hinv h1 h2 h3 h4 h5
    have e0 : (_orderHash o).amountSell = o.amountSell := rfl
    have hfb := hinv (_orderHash o)
    have hb : ¬ o.amountSell < s.filledAmountSell (_orderHash o) := by omega
    cases sig with
    | malformed => simp [ecrecover] at h4
    | signedBy a =>
        simp only [ecrecover, Option.some.injEq] at h4
        subst h4
        simp [fillOrder, _fillOrder, ecrecover, h1, h2, h3, hb, h5]

/-- Witness for C2: over-filling the demonstration order (150 requested
against a remaining capacity of 100) is rejected, and the counter bound
holds on a concrete one-transaction trace. -/
theorem fill_bound_C2_witness :
    fillOrder demoState 2 10 demoOrder 150 (.signedBy 1)
      = .error .InsufficientOrderRemaining ∧
    (execTrace [Op.fillOrder 2 10 demoOrder 40 (.signedBy 1)]).filledAmountSell
      (_orderHash demoOrder) ≤ (_orderHash demoOrder).amountSell := by
  constructor
  · exact fill_bound_C2.2.2.2 demoState 2 10 demoOrder 150 (.signedBy 1)
      (fun c => Nat.zero_le _) (by decide) (by decide) rfl rfl (by decide)
  · exact fill_bound_C2.2.2.1 [Op.fillOrder 2 10 demoOrder 40 (.signedBy 1)]
      (_orderHash demoOrder)

/-- C4 — Proportional counter-amount with floor rounding: on a
successful fill between distinct parties and distinct assets, the maker
pays exactly `amountToFill` of the sell asset to the taker and receives
exactly `floor(amountBuy * amountToFill / amountSell)` of the buy asset
from the taker; and on the spec's concrete examples the counter-amount
is 80, resp. 3 (not 4). -/
theorem fill_amounts_C4 :
    (∀ (s : OBState) (caller : Address) (now : Nat) (o : Order) (amt : Nat)
        (sig : Signature) (s' : OBState),
        o.maker ≠ caller → o.tokenSell ≠ o.tokenBuy →
        fillOrder s caller now o amt sig = .ok s' →
        s'.balances o.maker o.tokenSell = s.balances o.maker o.tokenSell - amt ∧
        s'.balances o.maker o.tokenBuy
          = s.balances o.maker o.tokenBuy + proportionalBuyAmount o amt ∧
        s'.balances caller o.tokenBuy
          = s.balances caller o.tokenBuy - proportionalBuyAmount o amt ∧
        s'.balances caller o.tokenSell = s.balances caller o.tokenSell + amt ∧
        s'.filledAmountSell (_orderHash o)
          = s.filledAmountSell (_orderHash o) + amt ∧
        proportionalBuyAmount o amt = o.amountBuy * amt / o.amountSell) ∧
    proportionalBuyAmount
      { maker := 1, taker := 0, tokenSell := 1, tokenBuy := 2,
        amountSell := 100, amountBuy := 200, expiration := 1000, salt := 0 } 40 = 80 ∧
    proportionalBuyAmount
      { maker := 1, taker := 0, tokenSell := 1, tokenBuy := 2,
        amountSell := 3, amountBuy := 10, expiration := 1000, salt := 0 } 1 = 3 ∧
    proportionalBuyAmount
      { maker := 1, taker := 0, tokenSell := 1, tokenBuy := 2,
        amountSell := 3, amountBuy := 10, expiration := 1000, salt := 0 } 1 ≠ 4 := by
  refine ⟨?_, by decide, by decide, by decide⟩
  intro s caller now o amt sig s' hmc htb h
  obtain ⟨-, -, -, -, -, -, -, -, -, -, hs⟩ := _fillOrder_ok_elim h
  subst hs
  refine ⟨?_, ?_, ?_, ?_, ?_, rfl⟩ <;>
    simp [fillBalances_apply, setFilled, hmc, htb, Ne.symm hmc, Ne.symm htb] <;>
    ring

/-- Witness for C4: the 40-unit demonstration fill moves exactly 40 of
token 1 from the maker and exactly 80 = floor(200·40/100) of token 2 to
the maker. -/
theorem fill_amounts_C4_witness :
    demoAfterFill.balances 1 1 = demoState.balances 1 1 - 40 ∧
    demoAfterFill.balances 1 2
      = demoState.balances 1 2 + proportionalBuyAmount demoOrder 40 ∧
    demoAfterFill.balances 2 2
      = demoState.balances 2 2 - proportionalBuyAmount demoOrder 40 ∧
    demoAfterFill.balances 2 1 = demoState.balances 2 1 + 40 := by
  have h := fill_amounts_C4.1 demoState 2 10 demoOrder 40 (.signedBy 1)
    demoAfterFill (by decide) (by decide) rfl
  exact ⟨h.1, h.2.1, h.2.2.1, h.2.2.2.1⟩

/-- Counterexample for C5 as stated: a deposit of amount 0 with a valid
(nonzero) token address is accepted by the code, not rejected. -/
theorem deposit_zero_C5_counterexample :
    (deposit initialState 1 2 0).isOk = true := rfl

/-- C5 amended: `deposit` checks only that the token address is not the
zero sentinel (rejecting with `InvalidTokenAddress`, the code's name for
the spec's `InvalidAsset`); there is no `amount > 0` check, so a
zero-amount deposit succeeds as a no-op; on success the caller's entry
grows by exactly `amount` and nothing else changes; on any rejection the
storage is unchanged. -/
theorem deposit_C5_amended :
    (∀ (s : OBState) (caller : Address) (token : Token) (amount : Nat),
        token = 0 →
        deposit s caller token amount = .error .InvalidTokenAddress) ∧
    (∀ (s : OBState) (caller : Address) (token : Token) (amount : Nat) (s' : OBState),
        deposit s caller token amount = .ok s' →
        token ≠ 0 ∧
        s'.balances caller token = s.balances caller token + amount ∧
        (∀ a t, ¬ (a = caller ∧ t = token) → s'.balances a t = s.balances a t) ∧
        s'.filledAmountSell = s.filledAmountSell ∧
        s'.cancelledOrders = s.cancelledOrders) ∧
    (∀ (s : OBState) (caller : Address) (token : Token),
        token ≠ 0 → (deposit s caller token 0).isOk = true) ∧
    (∀ (s : OBState) (caller : Address) (token : Token) (amount : Nat) (e : SolError),
        deposit s caller token amount = .error e →
        applyOp s (Op.deposit caller token amount) = s) := by
  refine ⟨?_, ?_, ?_, fun s caller token amount e he => applyOp_of_error he⟩
  · intro s caller token amount h
    simp [deposit, h]
  · intro s caller token amount s' h
    obtain ⟨h0, hs⟩ := deposit_ok_elim h
    subst hs
    refine ⟨h0, by simp [setBal], ?_, rfl, rfl⟩
    intro a t hat
    simp [setBal, hat]
  · intro s caller token h
    simp only [deposit, if_neg h]
    rfl

/-- Witness for C5 (amended): zero-token deposits are rejected with
`InvalidTokenAddress`, and a zero-amount deposit to a valid token
succeeds. -/
theorem deposit_C5_witness :
    deposit demoState 1 0 5 = .error .InvalidTokenAddress ∧
    (deposit demoState 1 3 0).isOk = true :=
  ⟨deposit_C5_amended.1 demoState 1 0 5 rfl,
   deposit_C5_amended.2.2.1 demoState 1 3 (by decide)⟩

/-- Counterexample for C6 as stated: on an unparseable signature,
`verifyOrder` aborts with the OpenZeppelin ECDSA revert rather than
returning a false/invalid result. -/
theorem verify_malformed_C6_counterexample :
    verifyOrder demoOrder .malformed = .error .ECDSAInvalidSignature ∧
    verifyOrder demoOrder .malformed ≠ .ok false :=
  ⟨rfl, fun h => nomatch h⟩

/-- C6 amended: `verifyOrder` is a pure, state-free view function; it
aborts with the ECDSA parsing revert on a malformed signature (it does
not return false there), and whenever recovery succeeds it returns true
exactly when the recovered signer is the order's maker. -/
theorem verify_C6_amended :
    (∀ o : Order, verifyOrder o .malformed = .error .ECDSAInvalidSignature) ∧
    (∀ (o : Order) (a : Address),
        verifyOrder o (.signedBy a) = .ok (decide (a = o.maker))) ∧
    (∀ (o : Order) (sig : Signature) (a : Address),
        ecrecover (_orderHash o) sig = some a →
        verifyOrder o sig = .ok (decide (a = o.maker))) := by
  refine ⟨fun o => rfl, fun o a => rfl, ?_⟩
  intro o sig a h
  cases sig with
  | malformed => simp [ecrecover] at h
  | signedBy b =>
      simp only [ecrecover, Option.some.injEq] at h
      subst h
      rfl

/-- Witness for C6 (amended): a well-formed signature by the maker
verifies to true. -/
theorem verify_C6_witness :
    verifyOrder demoOrder (.signedBy 1) = .ok true := by
  have h := verify_C6_amended.2.2 demoOrder (.signedBy 1) 1 rfl
  simpa using h

/-- C7 — Batch fill contract: `fillOrdersBatch` rejects with
`ArrayLengthMismatch` when the three arrays differ in length, with
`TooManyOrders` when their common length exceeds `MAX_BATCH_SIZE` (= 5);
otherwise it equals the sequential application of the public
single-order `fillOrder` to the triples in array order (fail-fast, so
one failing element fails the whole call), and any rejection leaves the
storage unchanged. -/
theorem batch_C7 :
    (∀ (s : OBState) (caller : Address) (now : Nat) (os : List Order)
        (amts : List Nat) (sigs : List Signature),
        (os.length ≠ amts.length ∨ os.length ≠ sigs.length) →
        fillOrdersBatch s caller now os amts sigs
          = .error .ArrayLengthMismatch) ∧
    (∀ (s : OBState) (caller : Address) (now : Nat) (os : List Order)
        (amts : List Nat) (sigs : List Signature),
        os.length = amts.length → os.length = sigs.length →
        MAX_BATCH_SIZE < os.length →
        fillOrdersBatch s caller now os amts sigs = .error .TooManyOrders) ∧
    (∀ (s : OBState) (caller : Address) (now : Nat) (os : List Order)
        (amts : List Nat) (sigs : List Signature),
        os.length = amts.length → os.length = sigs.length →
        os.length ≤ MAX_BATCH_SIZE →
        fillOrdersBatch s caller now os amts sigs
          = execFillSeq caller now s (os.zip (amts.zip sigs))) ∧
    (∀ (s : OBState) (caller : Address) (now : Nat) (os : List Order)
        (amts : List Nat) (sigs : List Signature) (e : SolError),
        fillOrdersBatch s caller now os amts sigs = .error e →
        applyOp s (Op.fillOrdersBatch caller now os amts sigs) = s) ∧
    MAX_BATCH_SIZE = 5 := by
  have hM : MAX_BATCH_SIZE = 5 := rfl
  refine ⟨?_, ?_, ?_, fun s caller now os amts sigs e he => applyOp_of_error he, rfl⟩
  · intro s caller now os amts sigs h
    unfold fillOrdersBatch
    rw [if_pos h]
  · intro s caller now os amts sigs h1 h2 h3
    unfold fillOrdersBatch
    rw [if_neg (by omega), if_pos h3]
  · intro s caller now os amts sigs h1 h2 h3
    unfold fillOrdersBatch
    rw [if_neg (by omega), if_neg (by omega)]
    exact fillLoop_eq_execFillSeq caller now _ s

/-- Witness for C7: a length mismatch, an oversized batch, and a
well-formed singleton batch agreeing with the sequential single-fill
semantics, all at concrete inputs. -/
theorem batch_C7_witness :
    fillOrdersBatch demoState 2 10 [demoOrder] [] [] = .error .ArrayLengthMismatch ∧
    fillOrdersBatch demoState 2 10
      (List.replicate 6 demoOrder) (List.replicate 6 40)
      (List.replicate 6 (.signedBy 1)) = .error .TooManyOrders ∧
    fillOrdersBatch demoState 2 10 [demoOrder] [40] [.signedBy 1]
      = execFillSeq 2 10 demoState ([demoOrder].zip ([40].zip [.signedBy 1])) :=
  ⟨batch_C7.1 demoState 2 10 [demoOrder] [] [] (by decide),
   batch_C7.2.1 demoState 2 10 (List.replicate 6 demoOrder) (List.replicate 6 40)
     (List.replicate 6 (.signedBy 1)) (by decide) (by decide) (by decide),
   batch_C7.2.2.1 demoState 2 10 [demoOrder] [40] [.signedBy 1]
     (by decide) (by decide) (by decide)⟩

/-- C8 — Cancellation lifecycle: a non-maker cancel is rejected with
`OnlyMakerCanCancel`; a maker cancel marks exactly the order's
commitment cancelled and touches nothing else; a set cancellation flag
survives every transaction; cancelling an already-cancelled order
succeeds and leaves the state literally unchanged; and a fill of a
cancelled commitment never succeeds, rejecting with
`OrderAlreadyCancelled` once the expiration and taker checks pass. -/
theorem cancel_C8 :
    (∀ (s : OBState) (caller : Address) (o : Order),
        caller ≠ o.maker →
        cancelOrder s caller o = .error .OnlyMakerCanCancel) ∧
    (∀ (s : OBState) (caller : Address) (o : Order) (s' : OBState),
        cancelOrder s caller o = .ok s' →
        caller = o.maker ∧
        s'.cancelledOrders (_orderHash o) = true ∧
        s'.balances = s.balances ∧
        s'.filledAmountSell = s.filledAmountSell ∧
        ∀ c, c ≠ _orderHash o → s'.cancelledOrders c = s.cancelledOrders c) ∧
    (∀ (s : OBState) (op : Op) (c : Commitment),
        s.cancelledOrders c = true →
        (applyOp s op).cancelledOrders c = true) ∧
    (∀ (s : OBState) (o : Order),
        s.cancelledOrders (_orderHash o) = true →
        cancelOrder s o.maker o = .ok s) ∧
    (∀ (s : OBState) (caller : Address) (now : Nat) (o : Order) (amt : Nat)
        (sig : Signature),
        s.cancelledOrders (_orderHash o) = true →
        (∀ s', fillOrder s caller now o amt sig ≠ .ok s') ∧
        (¬ o.expiration < now → ¬ (o.taker ≠ 0 ∧ o.taker ≠ caller) →
          fillOrder s caller now o amt sig = .error .OrderAlreadyCancelled)) := by
  refine ⟨?_, ?_, ?_, ?_, ?_⟩
  · intro s caller o h
    simp [cancelOrder, h]
  · intro s caller o s' h
    obtain ⟨hm, hs⟩ := cancelOrder_ok_elim h
    subst hs
    refine ⟨hm, by simp [setCancelled], rfl, rfl, ?_⟩
    intro c hc
    simp [setCancelled, hc]
  · intro s op c hc
    exact (applyOp_fields s op).2.2.2 c hc
  · intro s o hc
    have hfun : setCancelled s.cancelledOrders (_orderHash o) true
        = s.cancelledOrders := by
      funext c
      simp only [setCancelled]
      split_ifs with h
      · subst h; exact hc.symm
      · rfl
    unfold cancelOrder
    rw [if_neg (by simp), hfun]
  · intro s caller now o amt sig hc
    constructor
    · intro s' h
      have := (_fillOrder_ok_elim h).2.2.1
      rw [hc] at this
      cases this
    · intro h1 h2
      simp [fillOrder, _fillOrder, h1, h2, hc]

/-- Witness for C8: a non-maker cancel is rejected; re-cancelling the
already-cancelled demonstration order is an accepted no-op; filling it
is rejected with `OrderAlreadyCancelled`. -/
theorem cancel_C8_witness :
    cancelOrder demoState 2 demoOrder = .error .OnlyMakerCanCancel ∧
    cancelOrder demoCancelled 1 demoOrder = .ok demoCancelled ∧
    fillOrder demoCancelled 2 10 demoOrder 40 (.signedBy 1)
      = .error .OrderAlreadyCancelled := by
  refine ⟨cancel_C8.1 demoState 2 demoOrder (by decide), ?_, ?_⟩
  · exact cancel_C8.2.2.2.1 demoCancelled demoOrder (by decide)
  · exact (cancel_C8.2.2.2.2 demoCancelled 2 10 demoOrder 40 (.signedBy 1)
      (by decide)).2 (by decide) (by decide)

/-- C9 — Replay immunity via salt: two orders agreeing on every field
but the salt have different commitments, and a fill or cancellation of
one order leaves the fill counter and cancellation flag of any other
commitment untouched, so the two orders are tracked independently. -/
theorem salt_C9 :
    (∀ o1 o2 : Order,
        o1.maker = o2.maker → o1.taker = o2.taker →
        o1.tokenSell = o2.tokenSell → o1.tokenBuy = o2.tokenBuy →
        o1.amountSell = o2.amountSell → o1.amountBuy = o2.amountBuy →
        o1.expiration = o2.expiration → o1.salt ≠ o2.salt →
        _orderHash o1 ≠ _orderHash o2) ∧
    (∀ (s : OBState) (caller : Address) (now : Nat) (o : Order) (amt : Nat)
        (sig : Signature) (s' : OBState) (c : Commitment),
        c ≠ _orderHash o →
        fillOrder s caller now o amt sig = .ok s' →
        s'.filledAmountSell c = s.filledAmountSell c ∧
        s'.cancelledOrders c = s.cancelledOrders c) ∧
    (∀ (s : OBState) (caller : Address) (o : Order) (s' : OBState) (c : Commitment),
        c ≠ _orderHash o →
        cancelOrder s caller o = .ok s' →
        s'.cancelledOrders c = s.cancelledOrders c ∧
        s'.filledAmountSell c = s.filledAmountSell c) := by
  refine ⟨?_, ?_, ?_⟩
  · intro o1 o2 h1 h2 h3 h4 h5 h6 h7 h8 hh
    exact h8 (congrArg Commitment.salt hh)
  · intro s caller now o amt sig s' c hc h
    obtain ⟨-, -, -, -, -, -, -, -, -, -, hs⟩ := _fillOrder_ok_elim h
    subst hs
    exact ⟨by simp [setFilled, hc], rfl⟩
  · intro s caller o s' c hc h
    obtain ⟨-, hs⟩ := cancelOrder_ok_elim h
    subst hs
    exact ⟨by simp [setCancelled, hc], rfl⟩

/-- Witness for C9: `demoOrder` and `demoOrder2` differ only in salt,
have different commitments, and the demonstration fill of `demoOrder`
leaves the counter and flag of `demoOrder2` untouched. -/
theorem salt_C9_witness :
    _orderHash demoOrder ≠ _orderHash demoOrder2 ∧
    demoAfterFill.filledAmountSell (_orderHash demoOrder2)
      = demoState.filledAmountSell (_orderHash demoOrder2) ∧
    demoAfterFill.cancelledOrders (_orderHash demoOrder2)
      = demoState.cancelledOrders (_orderHash demoOrder2) := by
  refine ⟨salt_C9.1 demoOrder demoOrder2 rfl rfl rfl rfl rfl rfl rfl (by decide), ?_⟩
  exact salt_C9.2.1 demoState 2 10 demoOrder 40 (.signedBy 1) demoAfterFill
    (_orderHash demoOrder2) (by decide) rfl

set_option maxHeartbeats 1600000 in
/-- C10 — Unguarded division: an order with `amountSell = 0` and
`amountToFill = 0` that passes the expiration, taker, cancellation and
signature checks (remaining capacity 0 is not less than 0) aborts with
the Solidity division-by-zero panic, which is not one of the contract's
declared custom errors; with `amountSell > 0` — the spec's data-model
precondition — the division never panics. -/
theorem div_zero_C10 :
    (∀ (s : OBState) (caller : Address) (now : Nat) (o : Order) (sig : Signature),
        o.amountSell = 0 →
        s.filledAmountSell (_orderHash o) = 0 →
        ¬ o.expiration < now →
        ¬ (o.taker ≠ 0 ∧ o.taker ≠ caller) →
        s.cancelledOrders (_orderHash o) = false →
        ecrecover (_orderHash o) sig = some o.maker →
        fillOrder s caller now o 0 sig = .error .PanicDivisionByZero) ∧
    (∀ (s : OBState) (caller : Address) (now : Nat) (o : Order) (amt : Nat)
        (sig : Signature),
        0 < o.amountSell →
        fillOrder s caller now o amt sig ≠ .error .PanicDivisionByZero) := by
  constructor
  · intro s caller now o sig h0 hf h1 h2 h3 h4
    cases sig with
    | malformed => simp [ecrecover] at h4
    | signedBy a =>
        simp only [ecrecover, Option.some.injEq] at h4
        subst h4
        simp [fillOrder, _fillOrder, ecrecover, h0, hf, h1, h2, h3]
  · intro s caller now o amt sig hpos hcontra
    cases sig with
    | malformed =>
        simp only [fillOrder, _fillOrder, ecrecover] at hcontra
        split_ifs at hcontra <;> simp_all
    | signedBy a =>
        simp only [fillOrder, _fillOrder, ecrecover] at hcontra
        split_ifs at hcontra <;> simp_all

/-- Witness for C10: the concrete `amountSell = 0` order panics with
division-by-zero at `amountToFill = 0`, while the ordinary demonstration
order can never produce that panic. -/
theorem div_zero_C10_witness :
    fillOrder demoState 2 10 demoOrderZero 0 (.signedBy 1)
      = .error .PanicDivisionByZero ∧
    fillOrder demoState 2 10 demoOrder 40 (.signedBy 1)
      ≠ .error .PanicDivisionByZero :=
  ⟨div_zero_C10.1 demoState 2 10 demoOrderZero (.signedBy 1) rfl rfl
     (by decide) (by decide) rfl rfl,
   div_zero_C10.2 demoState 2 10 demoOrder 40 (.signedBy 1) (by decide)⟩

end Orderbook
